import Mathlib

set_option maxRecDepth 10000

/-
Verification of the EduVerse repository's operational scripts against its
natural-language specification.

Shallow embedding notes:
* `undo_migrations.sh` is modelled as a total function `runScript` over an
  explicit state `St` (filesystem entries, the SQLite database, an event
  trace, the last exit status, and a counter indexing an oracle of external
  command outcomes).  Filesystem paths are lists of components; the project
  root is the empty path.  The `db.sqlite3` file is represented solely by the
  `db : Option Db` field (`none` = the file is absent).
* External framework commands (`./manage.py showmigrations / migrate /
  makemigrations`) belong to the web framework, not to this repository; they
  are modelled abstractly through oracles: `lines` (the `showmigrations`
  output), `gen` (the migration files `makemigrations` writes for an owned
  app) and `known` (the full set of migrations the framework knows).
  Rolling back migrations on an absent database is modelled as leaving the
  database absent.
* `source .env` sets environment variables only; it is modelled as a pure
  trace event.  Log-message `echo`s inside loops are not traced; the final
  `echo "Finished execution successfully"` is.
* Shell word splitting of `${my_apps}` / `${django_apps}` is modelled by
  splitting each entry on spaces and dropping empty words; file names are
  assumed free of newlines and tabs.
* The GitHub workflow `check_base-branch.yml` is modelled by
  `checkBaseBranch`; the quoted right-hand side of bash `=~` is a literal
  substring test, rendered as a list-infix test on the space-padded,
  space-joined allow list.
* The browser handlers (`password_toggle.js`, the hero slideshow) are
  modelled as pure state transformers; `classList` membership of the two
  relevant classes is modelled by Boolean fields.
-/

/- String constants used by the scripts. -/

def emptyStr : String := ""

def sSpaceStr : String := " "

def sInit : String := "__init__.py"

def sSettings : String := "settings.py"

def sVenv : String := ".venv"

def sLib : String := "lib"

def sMigrations : String := "migrations"

def sDbFile : String := "db.sqlite3"

def sErrLog : String := "error.log"

def sEnvFile : String := ".env"

def sProduction : String := "production"

def sDev : String := "dev"

def brCore : String := "development/core"

def brParent : String := "development/parent"

def brTeacher : String := "development/teacher"

def brStudent : String := "development/student"

def sPassword : String := "password"

def sText : String := "text"

/- Generic list utilities (lexicographic insertion sort standing in for
`sort`, and whitespace word splitting standing in for shell word
splitting).  Both are written structurally recursive so that concrete
instances evaluate inside `decide` / `rfl`. -/

def lexLe : List Char → List Char → Bool
  | [], _ => true
  | _ :: _, [] => false
  | a :: as, b :: bs => if a = b then lexLe as bs else decide (a < b)

def insertLe (a : String) : List String → List String
  | [] => [a]
  | b :: bs => if lexLe a.data b.data then a :: b :: bs else b :: insertLe a bs

def sortLe : List String → List String
  | [] => []
  | a :: as => insertLe a (sortLe as)

/-- Accumulates maximal runs of non-space characters, right to left. -/
def pushChar (c : Char) (acc : List (List Char)) : List (List Char) :=
  if c = ' ' then [] :: acc
  else
    match acc with
    | [] => [[c]]
    | w :: ws => (c :: w) :: ws

/-- Splits a character list into its maximal non-space words. -/
def splitWordsCh (cs : List Char) : List String :=
  ((cs.foldr pushChar []).filter (fun w => decide (w ≠ []))).map (fun w => String.mk w)

/-- Shell word splitting of a list of lines (IFS whitespace; empty words
vanish). -/
def words (l : List String) : List String := l.flatMap (fun s => splitWordsCh s.data)

/- Filesystem model: a path is its list of components, the project root is
`[]`.  `FsState` records which directories and which regular files exist. -/

abbrev FPath := List String

structure FsState where
  dirs : List FPath
  files : List FPath
deriving DecidableEq

/- Database model.  `applied` is the set of (app label, migration name)
rows of the framework's migration table; `superuser` records whether the
privileged account has been provisioned. -/

structure Db where
  applied : List (String × String)
  superuser : Bool
deriving DecidableEq

/- Trace events of one run of `undo_migrations.sh`. -/

inductive Ev where
  | sourceEnv
  | rmDb
  | migrateZero (app : String)
  | rmTreeApp (app : String)
  | makeMigrations (apps : List String)
  | migrate
  | createSuperuser
  | rmErrLog
  | echoDone
deriving DecidableEq

structure St where
  fs : FsState
  db : Option Db
  trace : List Ev
  lastCode : Nat
  ctr : Nat
deriving DecidableEq

/-- Appends an event and records the command's exit status, as bash records
`$?` after every command. -/
def emit (e : Ev) (c : Nat) (s : St) : St :=
  { s with trace := s.trace ++ [e], lastCode := c }

/-- Exit status of the next external command, drawn from the oracle. -/
def extStatus (ok : Nat → Bool) (s : St) : Nat := if ok s.ctr then 0 else 1

/-- Lines 14-18 of undo_migrations.sh: `source .env` when the file exists
(environment variables only; no filesystem or database effect). -/
def sourceEnvStep (s : St) : St :=
  if [sEnvFile] ∈ s.fs.files then emit Ev.sourceEnv 0 s else s

/-- Line 20: `rm -f db.sqlite3 2>/dev/null` (exit 0 thanks to `-f`). -/
def rmDbStep (s : St) : St :=
  emit Ev.rmDb 0
    { s with db := none,
             fs := { s.fs with files := s.fs.files.filter (fun p => decide (p ≠ [sDbFile])) } }

/-- Effect of `./manage.py migrate <app> zero` on the migration table:
every applied migration of that app is unapplied; an absent database stays
absent. -/
def migrateZeroDb (a : String) : Option Db → Option Db
  | none => none
  | some d => some { d with applied := d.applied.filter (fun m => decide (m.fst ≠ a)) }

def migrateZeroStep (ok : Nat → Bool) (a : String) (s : St) : St :=
  emit (Ev.migrateZero a) (extStatus ok s)
    { s with db := migrateZeroDb a s.db, ctr := s.ctr + 1 }

/-- FPath of the migration directory removed by `rm -rf "${app}/migrations/"`. -/
def migPre (a : String) : FPath := [a, sMigrations]

/-- Recursive removal of one subtree, `rm -rf` (exit 0 whether or not the
target exists). -/
def rmTreeFs (pre : FPath) (fs : FsState) : FsState :=
  { dirs := fs.dirs.filter (fun d => decide (¬ pre <+: d)),
    files := fs.files.filter (fun p => decide (¬ pre <+: p)) }

def rmTreeStep (a : String) (s : St) : St :=
  emit (Ev.rmTreeApp a) 0 { s with fs := rmTreeFs (migPre a) s.fs }

/-- Body of both per-app loops (lines 38-41 and 61-67): unapply the app's
migrations, then delete its migration directory. -/
def loopBody (ok : Nat → Bool) (s : St) (a : String) : St :=
  rmTreeStep a (migrateZeroStep ok a s)

def runLoop (ok : Nat → Bool) (apps : List String) (s : St) : St :=
  apps.foldl (loopBody ok) s

/-- Files written by `./manage.py makemigrations $my_apps`: for each owned
app the oracle `gen` lists the file names created under `app/migrations/`. -/
def genFiles (gen : String → List String) (ws : List String) : List FPath :=
  ws.flatMap (fun a => (gen a).map (fun f => [a, sMigrations, f]))

/-- Migration directories created by `makemigrations` (only for apps it
writes files for). -/
def genDirs (gen : String → List String) (ws : List String) : List FPath :=
  (ws.filter (fun a => decide (gen a ≠ []))).map migPre

def makeMigrationsStep (ok : Nat → Bool) (gen : String → List String)
    (ws : List String) (s : St) : St :=
  emit (Ev.makeMigrations ws) (extStatus ok s)
    { s with ctr := s.ctr + 1,
             fs := { dirs := genDirs gen ws ++ s.fs.dirs,
                     files := genFiles gen ws ++ s.fs.files } }

/-- Effect of a plain `./manage.py migrate`: afterwards every migration the
framework knows is applied (the database file is created if absent); the
superuser flag is untouched. -/
def migrateStep (ok : Nat → Bool) (known : List (String × String)) (s : St) : St :=
  emit Ev.migrate (extStatus ok s)
    { s with ctr := s.ctr + 1,
             db := some ⟨known, (s.db.map Db.superuser).getD false⟩ }

/-- Modelled from the spec: `create_superuser.py` is repository code not
present under src/; per the spec it "provisions a superuser account", which
is modelled as setting the `superuser` flag. -/
def createSuperuserStep (ok : Nat → Bool) (s : St) : St :=
  emit Ev.createSuperuser (extStatus ok s)
    { s with ctr := s.ctr + 1,
             db := match s.db with
               | some d => some { d with superuser := true }
               | none => some ⟨[], true⟩ }

/-- Line 78: `rm error.log 2>/dev/null` (no `-f`: exit 1 when absent, with
the error message suppressed). -/
def rmErrLogStep (s : St) : St :=
  emit Ev.rmErrLog (if [sErrLog] ∈ s.fs.files then 0 else 1)
    { s with fs := { s.fs with files := s.fs.files.filter (fun p => decide (p ≠ [sErrLog])) } }

/-- Line 79: the final `echo "Finished execution successfully"`. -/
def echoDoneStep (s : St) : St := emit Ev.echoDone 0 s

/-- First component of a relative path as printed by `find` and extracted
by `cut -d '/' -f 1`; the project root prints as the empty string. -/
def headName (d : FPath) : String := d.headD emptyStr

/-- Paths pruned by `-not -path "./.venv/*"`: strictly below `./.venv`
(the `.venv` directory itself still matches). -/
def strictlyUnderVenv (d : FPath) : Bool :=
  match d with
  | a :: _ :: _ => decide (a = sVenv)
  | _ => false

/-- The per-directory test of the `find` invocation on lines 26-33:
`-exec test -f '{}/__init__.py' ; ! -exec test -f '{}/settings.py' ;`. -/
def ownedDirCond (fs : FsState) (d : FPath) : Bool :=
  !(strictlyUnderVenv d) && decide ((d ++ [sInit]) ∈ fs.files)
    && !(decide ((d ++ [sSettings]) ∈ fs.files))

/-- Lines 26-34: the `my_apps` list, i.e. first components of the
qualifying directories, sorted and deduplicated by `sort -u`. -/
def myApps (fs : FsState) : List String :=
  (sortLe ((fs.dirs.filter (fun d => ownedDirCond fs d)).map headName)).dedup

/-- Line 23: `grep -o mask` keeps, for each line of `showmigrations` output,
its leading run of lowercase letters; empty matches print nothing. -/
def lowerRun (line : String) : Option String :=
  let r := line.data.takeWhile (fun c => decide ('a' ≤ c ∧ c ≤ 'z'))
  if r = [] then none else some (String.mk r)

def allAppsOf (lines : List String) : List String := lines.filterMap lowerRun

/-- Writing a possibly-empty multiline variable with `echo` produces one
empty line when the variable is empty. -/
def echoLines (l : List String) : List String := if l = [] then [emptyStr] else l

/-- Literal substring test (bash `=~` with a fully quoted pattern, and the
substring semantics of a `grep -f` pattern with no metacharacters). -/
def substrB (pat s : String) : Bool := decide (pat.data <:+: s.data)

/-- Line 58: `django_apps` is every `all_apps` line that contains no
`my_apps` entry as a substring (`grep -v -f`). -/
def djangoAppsOf (lines : List String) (my : List String) : List String :=
  (echoLines (allAppsOf lines)).filter
    (fun line => !((echoLines my).any (fun p => substrB p line)))

/-- The whole of undo_migrations.sh as a state transformer.  `redo` is the
`--redo` flag; `lines`, `gen`, `known` and `ok` are the external-command
oracles described in the header comment. -/
def runScript (redo : Bool) (lines : List String) (gen : String → List String)
    (known : List (String × String)) (ok : Nat → Bool) (s0 : St) : St :=
  let s1 := rmDbStep (sourceEnvStep s0)
  let my := myApps s1.fs
  let ws := words my
  let dj := words (djangoAppsOf lines my)
  let s2 :=
    if redo then
      migrateStep ok known (makeMigrationsStep ok gen ws (runLoop ok ws s1))
    else runLoop ok ws s1
  let s3 := runLoop ok dj s2
  let s4 := if redo then createSuperuserStep ok (migrateStep ok known s3) else s3
  echoDoneStep (rmErrLogStep s4)

/-- Some path is deleted by the loops when one of the listed apps' migration
directories is a prefix of it. -/
def delBy (apps : List String) (p : FPath) : Prop := ∃ a ∈ apps, migPre a <+: p

/-- The word-split `my_apps` value a run starting from `s` works with. -/
def wsOf (s : St) : List String := words (myApps s.fs)

/-- The word-split `django_apps` value a run starting from `s` works with. -/
def djOf (lines : List String) (s : St) : List String :=
  words (djangoAppsOf lines (myApps s.fs))

/-- Events emitted by one per-app loop. -/
def loopEvs (apps : List String) : List Ev :=
  apps.flatMap (fun a => [Ev.migrateZero a, Ev.rmTreeApp a])

/-- Events emitted by the optional `.env` sourcing. -/
def envEvs (s : St) : List Ev := if [sEnvFile] ∈ s.fs.files then [Ev.sourceEnv] else []

/-- A path inside the framework installation: the deploy workflow creates
the virtual environment at `./.venv`, so the framework's own migration
history files live under `.venv/lib/...`. -/
def frameworkPath (p : FPath) : Prop := p.take 2 = [sVenv, sLib]

/-- Migrations the framework knows but the state's database has not
applied, as reported by a migration-status check. -/
def pendingAfter (known : List (String × String)) (s : St) : List (String × String) :=
  match s.db with
  | none => known
  | some d => known.filter (fun m => decide (m ∉ d.applied))

/-- End-state agreement on the filesystem, entry for entry. -/
def FsState.sameEntries (a b : FsState) : Prop :=
  (∀ p, p ∈ a.files ↔ p ∈ b.files) ∧ (∀ d, d ∈ a.dirs ↔ d ∈ b.dirs)

/-- End-state agreement of two runs: same filesystem entries and the same
database state. -/
def St.sameEnd (a b : St) : Prop := FsState.sameEntries a.fs b.fs ∧ a.db = b.db

/- Mirror definitions that follow the words of the specification (for the
refinement-style comparisons of C2 and C3). -/

/-- Follows the words of claim C3: a top-level directory (excluding .venv)
that contains `__init__.py` and does not contain `settings.py`. -/
def topLevelOwnedSpec (fs : FsState) (name : String) : Prop :=
  [name] ∈ fs.dirs ∧ name ≠ sVenv ∧ [name, sInit] ∈ fs.files ∧ [name, sSettings] ∉ fs.files

/-- The enumerated feature branches of check_base-branch.yml. -/
def allowedHeadBranches : List String := [brCore, brParent, brTeacher, brStudent]

/-- The space-padded, space-joined allow list `" ${allowed_head_branches[@]} "`. -/
def joinedAllowed : String :=
  sSpaceStr ++ String.intercalate sSpaceStr allowedHeadBranches ++ sSpaceStr

/-- Lines 14-32 of check_base-branch.yml: `true` iff the step exits 0. -/
def checkBaseBranch (base head : String) : Bool :=
  if base = sProduction then decide (head = sDev)
  else if base = sDev then substrB (sSpaceStr ++ head ++ sSpaceStr) joinedAllowed
  else true

/-- Follows the words of claim C2: head branches matching an enumerated
branch as a prefix are also said to be accepted into dev. -/
def claimAcceptSpec (base head : String) : Bool :=
  if base = sProduction then decide (head = sDev)
  else if base = sDev then allowedHeadBranches.any (fun b => decide (b.data <+: head.data))
  else true

/-- Extracts a space-delimited token starting at this suffix: when the
suffix begins with a space and contains a later space, the run of
non-space characters after the leading space. -/
def tokenOf (t : List Char) : Option (List Char) :=
  match t with
  | c :: r => if c = ' ' then (if ' ' ∈ r then some (r.takeWhile (fun x => decide (x ≠ ' '))) else none) else none
  | [] => none

/-- All space-delimited tokens of a character list. -/
def spaceTokens (cs : List Char) : List (List Char) := cs.tails.filterMap tokenOf

/- Browser handler models. -/

/-- One hero slide's class state: presence of `opacity-100` and of
`opacity-0`. -/
structure Slide where
  opacityFull : Bool
  opacityZero : Bool
deriving DecidableEq

structure Slideshow where
  currentSlide : Nat
  slides : List Slide
deriving DecidableEq

/-- The body of `showSlide`'s `forEach`, unrolled from index `i`:
`classList.toggle(cls, cond)` forces the class to `cond`. -/
def showSlideFrom (idx i : Nat) : List Slide → List Slide
  | [] => []
  | _ :: rest => ⟨decide (i = idx), decide (i ≠ idx)⟩ :: showSlideFrom idx (i + 1) rest

def showSlide (idx : Nat) (slides : List Slide) : List Slide := showSlideFrom idx 0 slides

/-- The `nextSlide` tick: advance modulo the slide count, then re-show. -/
def nextSlide (st : Slideshow) : Slideshow :=
  ⟨(st.currentSlide + 1) % st.slides.length,
   showSlide ((st.currentSlide + 1) % st.slides.length) st.slides⟩

/-- The password field and its toggle icon: the input's `type` attribute
and the `fa-eye` / `fa-eye-slash` class membership on the icon. -/
structure PasswordField where
  inputType : String
  hasEye : Bool
  hasEyeSlash : Bool
deriving DecidableEq

/-- The `togglePassword` click handler of password_toggle.js lines 8-13:
swap the type between password and text, and toggle both icon classes. -/
def togglePasswordClick (s : PasswordField) : PasswordField :=
  { inputType := if s.inputType = sPassword then sText else sPassword,
    hasEye := !s.hasEye,
    hasEyeSlash := !s.hasEyeSlash }

/- Concrete instances used by counterexamples and witnesses. -/

def sFoo : String := "foo"

def sBar : String := "bar"

def sCore : String := "core"

def sAuth : String := "auth"

def sScore : String := "score"

def sBlog : String := "blog"

def s0001 : String := "0001_initial.py"

def brCoreX : String := "development/core/x"

def okAll : Nat → Bool := fun _ => true

def genNone : String → List String := fun _ => []

def genInit : String → List String := fun _ => [sInit, s0001]

/-- Filesystem for the C3 counterexample: `foo` has no top-level
`__init__.py`, but `foo/bar` is a package. -/
def fsC3 : FsState := ⟨[[], [sFoo], [sFoo, sBar]], [[sFoo, sBar, sInit]]⟩

/-- Plain single-app project state (owned app `core`). -/
def stCore : St := ⟨⟨[[], [sCore]], [[sCore, sInit]]⟩, none, [], 0, 0⟩

/-- State with a framework file under `.venv/lib`. -/
def stVenv : St :=
  ⟨⟨[[], [sVenv], [sVenv, sLib]], [[sVenv, sLib, s0001], [sCore, sInit]]⟩, none, [], 0, 0⟩

/-- State for the C5 counterexample: `core` is detected as owned only via
`core/migrations/__init__.py`, and the installed app `score` contains
`core` as a substring. -/
def stC5 : St :=
  ⟨⟨[[], [sBlog], [sCore], [sCore, sMigrations], [sScore], [sScore, sMigrations]],
    [[sBlog, sInit], [sCore, sMigrations, sInit], [sScore, sMigrations, s0001]]⟩,
   none, [], 0, 0⟩

def linesC5 : List String := [sScore]

def linesAuth : List String := [sAuth]

/-- A two-slide slideshow, used as a concrete witness. -/
def demoShow : Slideshow := ⟨0, [⟨true, false⟩, ⟨false, true⟩]⟩

/-- A concrete password-field state, used as a witness. -/
def demoField : PasswordField := ⟨sPassword, true, false⟩

/- Helper lemmas about the list utilities. -/

theorem mem_insertLe {a x : String} {l : List String} :
    x ∈ insertLe a l ↔ x = a ∨ x ∈ l := by
  induction l with
  | nil => simp [insertLe]
  | cons b bs ih =>
    simp only [insertLe]
    cases h : lexLe a.data b.data
    all_goals simp [h, ih, List.mem_cons]
    all_goals tauto

theorem mem_sortLe {x : String} {l : List String} : x ∈ sortLe l ↔ x ∈ l := by
  induction l with
  | nil => simp [sortLe]
  | cons a as ih => simp [sortLe, mem_insertLe, ih]

theorem not_delBy_iff {apps : List String} {p : FPath} :
    ¬ delBy apps p ↔ ∀ a ∈ apps, ¬ migPre a <+: p := by
  simp [delBy]

/- Helper lemmas about the primitive steps. -/

theorem fs_emit (e : Ev) (c : Nat) (s : St) : (emit e c s).fs = s.fs := rfl

theorem db_emit (e : Ev) (c : Nat) (s : St) : (emit e c s).db = s.db := rfl

theorem trace_emit (e : Ev) (c : Nat) (s : St) : (emit e c s).trace = s.trace ++ [e] := rfl

theorem fs_sourceEnvStep (s : St) : (sourceEnvStep s).fs = s.fs := by
  unfold sourceEnvStep; split <;> rfl

theorem db_sourceEnvStep (s : St) : (sourceEnvStep s).db = s.db := by
  unfold sourceEnvStep; split <;> rfl

theorem trace_sourceEnvStep (s : St) : (sourceEnvStep s).trace = s.trace ++ envEvs s := by
  unfold sourceEnvStep envEvs; split <;> simp [emit]

theorem fs_rmDbStep (s : St) :
    (rmDbStep s).fs = { s.fs with files := s.fs.files.filter (fun p => decide (p ≠ [sDbFile])) } := rfl

theorem db_rmDbStep (s : St) : (rmDbStep s).db = none := rfl

theorem trace_rmDbStep (s : St) : (rmDbStep s).trace = s.trace ++ [Ev.rmDb] := rfl

/- Helper lemmas about the per-app loop. -/

theorem runLoop_files {ok : Nat → Bool} {apps : List String} {s : St} {p : FPath} :
    p ∈ (runLoop ok apps s).fs.files ↔
      p ∈ s.fs.files ∧ ∀ a ∈ apps, ¬ migPre a <+: p := by
  induction apps generalizing s with
  | nil => simp [runLoop]
  | cons a as ih =>
    have hstep : runLoop ok (a :: as) s = runLoop ok as (loopBody ok s a) := rfl
    rw [hstep, ih]
    simp only [loopBody, rmTreeStep, migrateZeroStep, emit, rmTreeFs, List.mem_filter,
      decide_eq_true_eq, List.forall_mem_cons]
    tauto

theorem runLoop_dirs {ok : Nat → Bool} {apps : List String} {s : St} {d : FPath} :
    d ∈ (runLoop ok apps s).fs.dirs ↔
      d ∈ s.fs.dirs ∧ ∀ a ∈ apps, ¬ migPre a <+: d := by
  induction apps generalizing s with
  | nil => simp [runLoop]
  | cons a as ih =>
    have hstep : runLoop ok (a :: as) s = runLoop ok as (loopBody ok s a) := rfl
    rw [hstep, ih]
    simp only [loopBody, rmTreeStep, migrateZeroStep, emit, rmTreeFs, List.mem_filter,
      decide_eq_true_eq, List.forall_mem_cons]
    tauto

theorem runLoop_db {ok : Nat → Bool} {apps : List String} {s : St} :
    (runLoop ok apps s).db =
      s.db.map (fun d => ⟨d.applied.filter (fun m => decide (m.fst ∉ apps)), d.superuser⟩) := by
  induction apps generalizing s with
  | nil =>
    cases hdb : s.db with
    | none => simp [runLoop, hdb]
    | some d => simp [runLoop, hdb]
  | cons a as ih =>
    have hstep : runLoop ok (a :: as) s = runLoop ok as (loopBody ok s a) := rfl
    rw [hstep, ih]
    cases hdb : s.db with
    | none => simp [loopBody, rmTreeStep, migrateZeroStep, emit, migrateZeroDb, hdb]
    | some d =>
      simp only [loopBody, rmTreeStep, migrateZeroStep, emit, migrateZeroDb, hdb,
        Option.map_some', Option.some.injEq, Db.mk.injEq, List.filter_filter]
      refine ⟨List.filter_congr ?_, trivial⟩
      intro m _
      by_cases h1 : m.fst = a <;> by_cases h2 : m.fst ∈ as <;> simp [h1, h2]

theorem runLoop_trace {ok : Nat → Bool} {apps : List String} {s : St} :
    (runLoop ok apps s).trace = s.trace ++ loopEvs apps := by
  induction apps generalizing s with
  | nil => simp [runLoop, loopEvs]
  | cons a as ih =>
    have hstep : runLoop ok (a :: as) s = runLoop ok as (loopBody ok s a) := rfl
    rw [hstep, ih]
    simp [loopBody, rmTreeStep, migrateZeroStep, emit, loopEvs, List.append_assoc]

/- Helper lemmas about `myApps` and the sets a run works with. -/

theorem mem_myApps {fs : FsState} {a : String} :
    a ∈ myApps fs ↔ ∃ d ∈ fs.dirs, ownedDirCond fs d = true ∧ headName d = a := by
  simp [myApps, List.mem_dedup, mem_sortLe, List.mem_map, List.mem_filter]
  tauto

theorem append_single_ne {d : FPath} {x y : String} (hxy : x ≠ y) : d ++ [x] ≠ [y] := by
  cases d with
  | nil => simpa using hxy
  | cons b bs => simp

theorem ownedDirCond_rmdb (fs : FsState) (d : FPath) :
    ownedDirCond { fs with files := fs.files.filter (fun p => decide (p ≠ [sDbFile])) } d =
      ownedDirCond fs d := by
  have h1 : ((d ++ [sInit]) ∈ fs.files.filter (fun p => decide (p ≠ [sDbFile]))) ↔
      (d ++ [sInit]) ∈ fs.files := by
    simp only [List.mem_filter, decide_eq_true_eq]
    exact ⟨fun h => h.1, fun h => ⟨h, append_single_ne (by decide)⟩⟩
  have h2 : ((d ++ [sSettings]) ∈ fs.files.filter (fun p => decide (p ≠ [sDbFile]))) ↔
      (d ++ [sSettings]) ∈ fs.files := by
    simp only [List.mem_filter, decide_eq_true_eq]
    exact ⟨fun h => h.1, fun h => ⟨h, append_single_ne (by decide)⟩⟩
  simp only [ownedDirCond, decide_eq_decide.mpr h1, decide_eq_decide.mpr h2]

theorem myApps_rmdb (fs : FsState) :
    myApps { fs with files := fs.files.filter (fun p => decide (p ≠ [sDbFile])) } = myApps fs := by
  unfold myApps
  have h : List.filter
      (fun d => ownedDirCond { fs with files := fs.files.filter (fun p => decide (p ≠ [sDbFile])) } d)
      fs.dirs = List.filter (fun d => ownedDirCond fs d) fs.dirs :=
    List.filter_congr (fun d _ => ownedDirCond_rmdb fs d)
  rw [show ({ fs with files := fs.files.filter (fun p => decide (p ≠ [sDbFile])) } : FsState).dirs
        = fs.dirs from rfl, h]

theorem myApps_start (s : St) : myApps (rmDbStep (sourceEnvStep s)).fs = myApps s.fs := by
  rw [fs_rmDbStep, fs_sourceEnvStep, myApps_rmdb]

/- Helper lemmas characterising a whole run of the script. -/

theorem runScript_unfold (redo : Bool) (lines : List String) (gen : String → List String)
    (known : List (String × String)) (ok : Nat → Bool) (s : St) :
    runScript redo lines gen known ok s =
      echoDoneStep (rmErrLogStep
        (if redo then
          createSuperuserStep ok (migrateStep ok known
            (runLoop ok (djOf lines s)
              (migrateStep ok known (makeMigrationsStep ok gen (wsOf s)
                (runLoop ok (wsOf s) (rmDbStep (sourceEnvStep s)))))))
         else
          runLoop ok (djOf lines s)
            (runLoop ok (wsOf s) (rmDbStep (sourceEnvStep s))))) := by
  rw [runScript, wsOf, djOf, myApps_start]
  cases redo <;> rfl

theorem runScript_unfold_basic (lines : List String) (gen : String → List String)
    (known : List (String × String)) (ok : Nat → Bool) (s : St) :
    runScript false lines gen known ok s =
      echoDoneStep (rmErrLogStep
        (runLoop ok (djOf lines s) (runLoop ok (wsOf s) (rmDbStep (sourceEnvStep s))))) := by
  rw [runScript_unfold]
  rfl

theorem runScript_unfold_redo (lines : List String) (gen : String → List String)
    (known : List (String × String)) (ok : Nat → Bool) (s : St) :
    runScript true lines gen known ok s =
      echoDoneStep (rmErrLogStep
        (createSuperuserStep ok (migrateStep ok known
          (runLoop ok (djOf lines s)
            (migrateStep ok known (makeMigrationsStep ok gen (wsOf s)
              (runLoop ok (wsOf s) (rmDbStep (sourceEnvStep s))))))))) := by
  rw [runScript_unfold]
  rfl

theorem fs_echoDoneStep (s : St) : (echoDoneStep s).fs = s.fs := rfl

theorem db_echoDoneStep (s : St) : (echoDoneStep s).db = s.db := rfl

theorem files_rmErrLogStep (s : St) :
    (rmErrLogStep s).fs.files = s.fs.files.filter (fun p => decide (p ≠ [sErrLog])) := rfl

theorem dirs_rmErrLogStep (s : St) : (rmErrLogStep s).fs.dirs = s.fs.dirs := rfl

theorem db_rmErrLogStep (s : St) : (rmErrLogStep s).db = s.db := rfl

theorem fs_migrateStep (ok : Nat → Bool) (known : List (String × String)) (s : St) :
    (migrateStep ok known s).fs = s.fs := rfl

theorem db_migrateStep (ok : Nat → Bool) (known : List (String × String)) (s : St) :
    (migrateStep ok known s).db = some ⟨known, (s.db.map Db.superuser).getD false⟩ := rfl

theorem fs_createSuperuserStep (ok : Nat → Bool) (s : St) :
    (createSuperuserStep ok s).fs = s.fs := rfl

theorem files_makeMigrationsStep (ok : Nat → Bool) (gen : String → List String)
    (ws : List String) (s : St) :
    (makeMigrationsStep ok gen ws s).fs.files = genFiles gen ws ++ s.fs.files := rfl

theorem dirs_makeMigrationsStep (ok : Nat → Bool) (gen : String → List String)
    (ws : List String) (s : St) :
    (makeMigrationsStep ok gen ws s).fs.dirs = genDirs gen ws ++ s.fs.dirs := rfl

theorem db_makeMigrationsStep (ok : Nat → Bool) (gen : String → List String)
    (ws : List String) (s : St) :
    (makeMigrationsStep ok gen ws s).db = s.db := rfl

theorem files_rmDbStep (s : St) :
    (rmDbStep s).fs.files = s.fs.files.filter (fun p => decide (p ≠ [sDbFile])) := rfl

theorem dirs_rmDbStep (s : St) : (rmDbStep s).fs.dirs = s.fs.dirs := rfl

theorem runScript_files {redo : Bool} {lines : List String} {gen : String → List String}
    {known : List (String × String)} {ok : Nat → Bool} {s : St} {p : FPath} :
    p ∈ (runScript redo lines gen known ok s).fs.files ↔
      ((redo = true ∧ p ∈ genFiles gen (wsOf s) ∧
          (∀ a ∈ djOf lines s, ¬ migPre a <+: p) ∧ p ≠ [sErrLog]) ∨
       (p ∈ s.fs.files ∧ p ≠ [sDbFile] ∧ (∀ a ∈ wsOf s, ¬ migPre a <+: p) ∧
          (∀ a ∈ djOf lines s, ¬ migPre a <+: p) ∧ p ≠ [sErrLog])) := by
  cases redo
  · rw [runScript_unfold_basic]
    simp only [fs_echoDoneStep, files_rmErrLogStep, List.mem_filter, decide_eq_true_eq,
      runLoop_files, files_rmDbStep, fs_sourceEnvStep, Bool.false_eq_true, false_and,
      false_or]
    tauto
  · rw [runScript_unfold_redo]
    simp only [fs_echoDoneStep, files_rmErrLogStep, List.mem_filter, decide_eq_true_eq,
      fs_createSuperuserStep, fs_migrateStep, runLoop_files, files_makeMigrationsStep,
      List.mem_append, files_rmDbStep, fs_sourceEnvStep, true_and]
    tauto

theorem runScript_dirs {redo : Bool} {lines : List String} {gen : String → List String}
    {known : List (String × String)} {ok : Nat → Bool} {s : St} {d : FPath} :
    d ∈ (runScript redo lines gen known ok s).fs.dirs ↔
      ((redo = true ∧ d ∈ genDirs gen (wsOf s) ∧ (∀ a ∈ djOf lines s, ¬ migPre a <+: d)) ∨
       (d ∈ s.fs.dirs ∧ (∀ a ∈ wsOf s, ¬ migPre a <+: d) ∧
          (∀ a ∈ djOf lines s, ¬ migPre a <+: d))) := by
  cases redo
  · rw [runScript_unfold_basic]
    simp only [fs_echoDoneStep, dirs_rmErrLogStep, runLoop_dirs, dirs_rmDbStep,
      fs_sourceEnvStep, Bool.false_eq_true, false_and, false_or]
    tauto
  · rw [runScript_unfold_redo]
    simp only [fs_echoDoneStep, dirs_rmErrLogStep, fs_createSuperuserStep, fs_migrateStep,
      runLoop_dirs, dirs_makeMigrationsStep, List.mem_append, dirs_rmDbStep,
      fs_sourceEnvStep, true_and]
    tauto

theorem runScript_db {redo : Bool} {lines : List String} {gen : String → List String}
    {known : List (String × String)} {ok : Nat → Bool} {s : St} :
    (runScript redo lines gen known ok s).db =
      if redo then some ⟨known, true⟩ else none := by
  cases redo
  · rw [runScript_unfold_basic]
    simp [db_echoDoneStep, db_rmErrLogStep, runLoop_db, db_rmDbStep]
  · rw [runScript_unfold_redo]
    simp [db_echoDoneStep, db_rmErrLogStep, createSuperuserStep, emit, db_migrateStep]

theorem runScript_trace_redo {lines : List String} {gen : String → List String}
    {known : List (String × String)} {ok : Nat → Bool} {s : St} :
    (runScript true lines gen known ok s).trace =
      s.trace ++ envEvs s ++ [Ev.rmDb] ++ loopEvs (wsOf s) ++
        [Ev.makeMigrations (wsOf s), Ev.migrate] ++ loopEvs (djOf lines s) ++
        [Ev.migrate, Ev.createSuperuser, Ev.rmErrLog, Ev.echoDone] := by
  rw [runScript_unfold_redo]
  simp only [echoDoneStep, rmErrLogStep, createSuperuserStep, migrateStep,
    makeMigrationsStep, emit, runLoop_trace, trace_rmDbStep, trace_sourceEnvStep,
    List.append_assoc, List.singleton_append, List.cons_append, List.nil_append]

theorem runScript_traceLast (redo : Bool) (lines : List String) (gen : String → List String)
    (known : List (String × String)) (ok : Nat → Bool) (s : St) :
    (runScript redo lines gen known ok s).trace.getLast? = some Ev.echoDone := by
  rw [runScript_unfold]
  exact List.getLast?_concat _

/- Helper lemmas for the branch-policy analysis (claim C2). -/

theorem takeWhile_append_cons_space {l v : List Char} (h : ' ' ∉ l) :
    (l ++ ' ' :: v).takeWhile (fun x => !decide (x = ' ')) = l := by
  induction l with
  | nil => simp
  | cons c cs ih =>
    have hc : c ≠ ' ' := fun hh => h (by simp [hh])
    have hcs : ' ' ∉ cs := fun hh => h (List.mem_cons_of_mem _ hh)
    simp [List.takeWhile_cons, hc, ih hcs]

theorem mem_spaceTokens_of_split {S u v l : List Char}
    (hS : S = u ++ (' ' :: (l ++ ' ' :: v))) (hl : ' ' ∉ l) : l ∈ spaceTokens S := by
  refine List.mem_filterMap.mpr ⟨' ' :: (l ++ ' ' :: v), ?_, ?_⟩
  · exact (List.mem_tails _ _).mpr ⟨u, hS.symm⟩
  · have hmem : (' ' : Char) ∈ l ++ ' ' :: v := List.mem_append_right _ (List.mem_cons_self _ _)
    simp [tokenOf, hmem, takeWhile_append_cons_space hl]

theorem spaceTokens_joined :
    spaceTokens joinedAllowed.data = allowedHeadBranches.map String.data := by decide

theorem dev_accept_mem {head : String} (hs : ' ' ∉ head.data)
    (h : checkBaseBranch sDev head = true) : head ∈ allowedHeadBranches := by
  have hne : ¬ (sDev = sProduction) := by decide
  have h' : (sSpaceStr ++ head ++ sSpaceStr).data <:+: joinedAllowed.data := by
    have := h
    rw [checkBaseBranch, if_neg hne, if_pos rfl, substrB, decide_eq_true_eq] at this
    exact this
  have hdata : (sSpaceStr ++ head ++ sSpaceStr).data = ' ' :: (head.data ++ [' ']) := by
    simp [String.data_append]
    rfl
  rw [hdata] at h'
  obtain ⟨u, v, huv⟩ := h'
  have hS : joinedAllowed.data = u ++ (' ' :: (head.data ++ ' ' :: v)) := by
    rw [← huv]
    simp [List.append_assoc]
  have hmem := mem_spaceTokens_of_split hS hs
  rw [spaceTokens_joined] at hmem
  obtain ⟨b, hb, hbd⟩ := List.mem_map.mp hmem
  have : b = head := String.ext hbd
  rwa [this] at hb

/- Claim theorems. -/

/-- C9: the password-visibility toggle is an involution: for every initial
input type (password or text) and every initial icon class state, clicking
twice restores the field's type attribute and the icon's fa-eye and
fa-eye-slash classes, and a single click maps type password to text and any
other type to password. -/
theorem c9_toggle_involution (s : PasswordField)
    (h : s.inputType = sPassword ∨ s.inputType = sText) :
    togglePasswordClick (togglePasswordClick s) = s ∧
      (s.inputType = sPassword → (togglePasswordClick s).inputType = sText) ∧
      (s.inputType ≠ sPassword → (togglePasswordClick s).inputType = sPassword) := by
  obtain ⟨t, e, l⟩ := s
  rcases h with h | h <;>
    · simp only at h
      subst h
      refine ⟨?_, ?_, ?_⟩ <;>
        simp [togglePasswordClick, show sText ≠ sPassword from by decide]

/-- C9 witness at a concrete field state. -/
theorem c9_witness :
    (demoField.inputType = sPassword ∨ demoField.inputType = sText) ∧
      togglePasswordClick (togglePasswordClick demoField) = demoField :=
  ⟨Or.inl rfl, (c9_toggle_involution demoField (Or.inl rfl)).1⟩

theorem length_showSlideFrom (idx i : Nat) (l : List Slide) :
    (showSlideFrom idx i l).length = l.length := by
  induction l generalizing i with
  | nil => rfl
  | cons x rest ih => simp [showSlideFrom, ih]

theorem get_showSlideFrom {idx : Nat} :
    ∀ {l : List Slide} {i j : Nat} (h : j < (showSlideFrom idx i l).length),
      (showSlideFrom idx i l).get ⟨j, h⟩ =
        ⟨decide (i + j = idx), decide (i + j ≠ idx)⟩ := by
  intro l
  induction l with
  | nil => intro i j h; simp [showSlideFrom] at h
  | cons x rest ih =>
    intro i j h
    cases j with
    | zero => simp [showSlideFrom]
    | succ j =>
      have h' : j < (showSlideFrom idx (i + 1) rest).length := by
        simpa [showSlideFrom] using h
      have := ih h'
      simp only [showSlideFrom, List.get_cons_succ, this]
      have hh : i + 1 + j = i + (j + 1) := by omega
      rw [hh]

/-- C10: after every tick of nextSlide on a non-empty slide list, the
current index stays in range and exactly one slide carries opacity-100
while every other slide carries opacity-0. -/
theorem c10_slideshow_invariant (st : Slideshow) (h : st.slides ≠ []) :
    (nextSlide st).currentSlide < st.slides.length ∧
      (nextSlide st).slides.length = st.slides.length ∧
      ∀ j (hj : j < (nextSlide st).slides.length),
        (((nextSlide st).slides.get ⟨j, hj⟩).opacityFull = true ↔
            j = (nextSlide st).currentSlide) ∧
        (((nextSlide st).slides.get ⟨j, hj⟩).opacityZero = true ↔
            j ≠ (nextSlide st).currentSlide) := by
  have hpos : 0 < st.slides.length := List.length_pos.mpr h
  refine ⟨Nat.mod_lt _ hpos, ?_, ?_⟩
  · simp [nextSlide, showSlide, length_showSlideFrom]
  · intro j hj
    have := @get_showSlideFrom ((st.currentSlide + 1) % st.slides.length)
      st.slides 0 j (by simpa [nextSlide, showSlide] using hj)
    constructor
    · simp only [nextSlide, showSlide]
      rw [this]
      simp
    · simp only [nextSlide, showSlide]
      rw [this]
      simp

/-- C10 witness at a concrete two-slide show. -/
theorem c10_witness :
    demoShow.slides ≠ [] ∧ (nextSlide demoShow).currentSlide < demoShow.slides.length :=
  ⟨by decide, (c10_slideshow_invariant demoShow (by decide)).1⟩

/-- C8: undo_migrations.sh always ends with exit status 0: whatever the
flag, the starting state and the outcomes of the external commands, the
last executed command is the final echo, so the recorded status is 0. -/
theorem c8_exit_zero (redo : Bool) (lines : List String) (gen : String → List String)
    (known : List (String × String)) (ok : Nat → Bool) (s : St) :
    (runScript redo lines gen known ok s).lastCode = 0 := by
  rw [runScript_unfold]
  rfl

theorem ownedDirCond_iff {fs : FsState} {d : FPath} :
    ownedDirCond fs d = true ↔
      strictlyUnderVenv d = false ∧ (d ++ [sInit]) ∈ fs.files ∧
        (d ++ [sSettings]) ∉ fs.files := by
  simp [ownedDirCond, Bool.and_eq_true, decide_eq_true_eq, Bool.not_eq_true']
  exact and_assoc

/-- C3 counterexample: on a filesystem where only `foo/bar/__init__.py`
exists, the name foo enters my_apps although the top-level directory foo
contains no initializer file. -/
theorem c3_counterexample : sFoo ∈ myApps fsC3 ∧ ¬ topLevelOwnedSpec fsC3 sFoo := by
  refine ⟨by decide, ?_⟩
  unfold topLevelOwnedSpec
  decide

/-- C3 amended: a name is in my_apps iff some directory at any depth (not
strictly under ./.venv; the project root counting as the empty name) whose
first path component is that name contains an initializer file and no
settings file. -/
theorem c3_owned_apps (fs : FsState) (name : String) :
    name ∈ myApps fs ↔
      ∃ d ∈ fs.dirs, strictlyUnderVenv d = false ∧ (d ++ [sInit]) ∈ fs.files ∧
        (d ++ [sSettings]) ∉ fs.files ∧ headName d = name := by
  rw [mem_myApps]
  refine exists_congr fun d => ?_
  rw [ownedDirCond_iff]
  tauto

/-- C2 counterexample: a pull request into dev from development/core/x is
rejected by the workflow although the claim's prefix reading accepts it. -/
theorem c2_counterexample :
    checkBaseBranch sDev brCoreX = false ∧ claimAcceptSpec sDev brCoreX = true := by decide

/-- C2 amended: for head branches containing no space character, a pull
request into production is accepted exactly when the head is dev, one into
dev exactly when the head is exactly one of the four enumerated feature
branches, and every other base branch is accepted unconditionally. -/
theorem c2_branch_policy (base head : String) (hs : ' ' ∉ head.data) :
    checkBaseBranch base head = true ↔
      ((base = sProduction ∧ head = sDev) ∨
       (base = sDev ∧ head ∈ allowedHeadBranches) ∨
       (base ≠ sProduction ∧ base ≠ sDev)) := by
  by_cases hp : base = sProduction
  · subst hp
    rw [checkBaseBranch, if_pos rfl]
    constructor
    · intro h
      exact Or.inl ⟨rfl, of_decide_eq_true h⟩
    · rintro (⟨_, h⟩ | ⟨hps, _⟩ | ⟨hne, _⟩)
      · exact decide_eq_true h
      · exact absurd hps (by decide)
      · exact absurd rfl hne
  · by_cases hd : base = sDev
    · subst hd
      rw [checkBaseBranch, if_neg hp, if_pos rfl]
      constructor
      · intro h
        exact Or.inr (Or.inl ⟨rfl, dev_accept_mem hs h⟩)
      · rintro (⟨h1, _⟩ | ⟨_, hmem⟩ | ⟨_, h2⟩)
        · exact absurd h1 hp
        · have hcases : head = brCore ∨ head = brParent ∨ head = brTeacher ∨
              head = brStudent := by simpa [allowedHeadBranches] using hmem
          rcases hcases with h | h | h | h <;> subst h <;> decide
        · exact absurd rfl h2
    · rw [checkBaseBranch, if_neg hp, if_neg hd]
      constructor
      · intro _
        exact Or.inr (Or.inr ⟨hp, hd⟩)
      · intro _
        rfl

/-- C2 witness: the theorem applied to base dev and head development/core. -/
theorem c2_witness :
    (' ' ∉ brCore.data) ∧
      (checkBaseBranch sDev brCore = true ↔
        ((sDev = sProduction ∧ brCore = sDev) ∨
         (sDev = sDev ∧ brCore ∈ allowedHeadBranches) ∨
         (sDev ≠ sProduction ∧ sDev ≠ sDev))) :=
  ⟨by decide, c2_branch_policy sDev brCore (by decide)⟩

theorem frameworkPath_shape {p : FPath} (h : frameworkPath p) :
    ∃ rest, p = sVenv :: sLib :: rest := by
  unfold frameworkPath at h
  match p, h with
  | a :: b :: rest, h =>
    simp only [List.take_succ_cons, List.take_zero, List.cons.injEq, and_true] at h
    exact ⟨rest, by rw [h.1, h.2]⟩

theorem migPre_not_pref_framework {a : String} {p : FPath} (h : frameworkPath p) :
    ¬ migPre a <+: p := by
  obtain ⟨rest, rfl⟩ := frameworkPath_shape h
  rintro ⟨t, ht⟩
  rw [migPre] at ht
  simp only [List.cons_append, List.nil_append, List.cons.injEq] at ht
  exact absurd ht.2.1 (by decide)

theorem genFiles_not_framework {gen : String → List String} {ws : List String} {p : FPath}
    (h : frameworkPath p) : p ∉ genFiles gen ws := by
  intro hp
  rw [genFiles] at hp
  obtain ⟨a, _, hp⟩ := List.mem_flatMap.mp hp
  obtain ⟨f, _, rfl⟩ := List.mem_map.mp hp
  unfold frameworkPath at h
  simp only [List.take_succ_cons, List.take_zero, List.cons.injEq, and_true] at h
  exact absurd h.2 (by decide)

/-- C1: for every flag, oracle outcome and starting filesystem state, a
complete run of undo_migrations.sh leaves every file under the framework
installation (the `.venv/lib` tree, where the framework's migration history
files of non-owned applications live) exactly as it found it. -/
theorem c1_framework_files_preserved (redo : Bool) (lines : List String)
    (gen : String → List String) (known : List (String × String)) (ok : Nat → Bool)
    (s : St) (p : FPath) (hp : frameworkPath p) :
    p ∈ (runScript redo lines gen known ok s).fs.files ↔ p ∈ s.fs.files := by
  rw [runScript_files]
  constructor
  · rintro (⟨_, hgen, _, _⟩ | ⟨hmem, _⟩)
    · exact absurd hgen (genFiles_not_framework hp)
    · exact hmem
  · intro hmem
    obtain ⟨rest, rfl⟩ := frameworkPath_shape hp
    refine Or.inr ⟨hmem, by simp, ?_, ?_, by simp⟩
    · intro a _
      exact migPre_not_pref_framework hp
    · intro a _
      exact migPre_not_pref_framework hp

/-- C1 witness: a concrete framework file under `.venv/lib` survives a
redo run. -/
theorem c1_witness :
    frameworkPath [sVenv, sLib, s0001] ∧
      ([sVenv, sLib, s0001] ∈ (runScript true linesAuth genInit [] okAll stVenv).fs.files ↔
        [sVenv, sLib, s0001] ∈ stVenv.fs.files) :=
  ⟨by unfold frameworkPath; decide,
   c1_framework_files_preserved true linesAuth genInit [] okAll stVenv _
     (by unfold frameworkPath; decide)⟩

/-- C4 counterexample: on a concrete project (owned app core, installed
app auth), the redo run unwinds the non-owned app auth at trace position 5,
before the superuser is provisioned at position 8, contradicting the
claimed order. -/
theorem c4_counterexample :
    (runScript true linesAuth genInit [] okAll stCore).trace =
      [Ev.rmDb, Ev.migrateZero sCore, Ev.rmTreeApp sCore, Ev.makeMigrations [sCore],
       Ev.migrate, Ev.migrateZero sAuth, Ev.rmTreeApp sAuth, Ev.migrate,
       Ev.createSuperuser, Ev.rmErrLog, Ev.echoDone] ∧
      sAuth ∉ words (myApps stCore.fs) ∧
      (runScript true linesAuth genInit [] okAll stCore).trace[5]? =
        some (Ev.migrateZero sAuth) ∧
      (runScript true linesAuth genInit [] okAll stCore).trace[8]? =
        some Ev.createSuperuser := by decide

/-- C4 amended: with the redo flag, the run first unwinds and deletes the
owned apps' migrations, then regenerates migration files and applies all
pending migrations, then unwinds every other discovered application and
deletes its migration directory, applies migrations again, and only then
provisions the superuser account. -/
theorem c4_redo_step_order (lines : List String) (gen : String → List String)
    (known : List (String × String)) (ok : Nat → Bool) (s : St) :
    (runScript true lines gen known ok s).trace =
      s.trace ++ envEvs s ++ [Ev.rmDb] ++ loopEvs (wsOf s) ++
        [Ev.makeMigrations (wsOf s), Ev.migrate] ++ loopEvs (djOf lines s) ++
        [Ev.migrate, Ev.createSuperuser, Ev.rmErrLog, Ev.echoDone] :=
  runScript_trace_redo

/-- C6: after a complete redo run, a migration-status check on the
resulting state reports no pending migration. -/
theorem c6_no_pending (lines : List String) (gen : String → List String)
    (known : List (String × String)) (ok : Nat → Bool) (s : St) :
    pendingAfter known (runScript true lines gen known ok s) = [] := by
  have hdb : (runScript true lines gen known ok s).db = some ⟨known, true⟩ := by
    rw [runScript_db]
    rfl
  rw [pendingAfter, hdb]
  refine List.filter_eq_nil_iff.mpr ?_
  intro m hm
  simp [hm]

/-- C7: every destructive step tolerates absence: rolling back an app with
no applied migrations (or on an absent database) leaves the database
unchanged, `rm -rf` of an absent subtree and `rm` of absent files leave the
state unchanged, and every run executes through to the final echo without
aborting. -/
theorem c7_absence_tolerant :
    (∀ a, migrateZeroDb a none = none) ∧
      (∀ (a : String) (d : Db), (∀ m ∈ d.applied, m.fst ≠ a) →
        migrateZeroDb a (some d) = some d) ∧
      (∀ (pre : FPath) (fs : FsState), (∀ p ∈ fs.files, ¬ pre <+: p) →
        (∀ q ∈ fs.dirs, ¬ pre <+: q) → rmTreeFs pre fs = fs) ∧
      (∀ s : St, s.db = none → [sDbFile] ∉ s.fs.files →
        (rmDbStep s).fs = s.fs ∧ (rmDbStep s).db = none) ∧
      (∀ s : St, [sErrLog] ∉ s.fs.files → (rmErrLogStep s).fs = s.fs) ∧
      (∀ (redo : Bool) (lines : List String) (gen : String → List String)
          (known : List (String × String)) (ok : Nat → Bool) (s : St),
        (runScript redo lines gen known ok s).trace.getLast? = some Ev.echoDone) := by
  refine ⟨fun a => rfl, ?_, ?_, ?_, ?_, runScript_traceLast⟩
  · intro a d hd
    have hf : d.applied.filter (fun m => decide (m.fst ≠ a)) = d.applied :=
      List.filter_eq_self.mpr (fun m hm => decide_eq_true (hd m hm))
    simp only [migrateZeroDb, hf]
  · intro pre fs h1 h2
    obtain ⟨ds, fls⟩ := fs
    rw [rmTreeFs]
    have hd2 : ds.filter (fun d => decide (¬ pre <+: d)) = ds :=
      List.filter_eq_self.mpr (fun d hd => decide_eq_true (h2 d hd))
    have hf2 : fls.filter (fun p => decide (¬ pre <+: p)) = fls :=
      List.filter_eq_self.mpr (fun p hp => decide_eq_true (h1 p hp))
    rw [hd2, hf2]
  · intro s hdb hfile
    have hf : s.fs.files.filter (fun p => decide (p ≠ [sDbFile])) = s.fs.files :=
      List.filter_eq_self.mpr (fun p hp => decide_eq_true (fun he => hfile (he ▸ hp)))
    exact ⟨by rw [fs_rmDbStep, hf], by rw [db_rmDbStep]⟩
  · intro s hfile
    have hf : s.fs.files.filter (fun p => decide (p ≠ [sErrLog])) = s.fs.files :=
      List.filter_eq_self.mpr (fun p hp => decide_eq_true (fun he => hfile (he ▸ hp)))
    have hfs : (rmErrLogStep s).fs =
        { s.fs with files := s.fs.files.filter (fun p => decide (p ≠ [sErrLog])) } := rfl
    rw [hfs, hf]

/-- C7 witness: the absence-tolerance statements applied to a concrete
clean state. -/
theorem c7_witness :
    migrateZeroDb sAuth none = none ∧
      migrateZeroDb sAuth (some ⟨[], false⟩) = some ⟨[], false⟩ ∧
      rmTreeFs (migPre sAuth) stCore.fs = stCore.fs ∧
      ((rmDbStep stCore).fs = stCore.fs ∧ (rmDbStep stCore).db = none) ∧
      (rmErrLogStep stCore).fs = stCore.fs ∧
      (runScript false linesAuth genNone [] okAll stCore).trace.getLast? =
        some Ev.echoDone :=
  ⟨c7_absence_tolerant.1 sAuth,
   c7_absence_tolerant.2.1 sAuth ⟨[], false⟩ (by simp),
   c7_absence_tolerant.2.2.1 (migPre sAuth) stCore.fs (by decide) (by decide),
   c7_absence_tolerant.2.2.2.1 stCore rfl (by decide),
   c7_absence_tolerant.2.2.2.2.1 stCore (by decide),
   c7_absence_tolerant.2.2.2.2.2 false linesAuth genNone [] okAll stCore⟩

/-- C5 counterexample: on a state where the owned app core is detected only
through its migrations package, the first run erases that package, so the
second run no longer filters the installed app score (whose name contains
core) and deletes score's migration files: running twice differs from
running once. -/
theorem c5_counterexample :
    [sScore, sMigrations, s0001] ∈ (runScript false linesC5 genNone [] okAll stC5).fs.files ∧
      [sScore, sMigrations, s0001] ∉
        (runScript false linesC5 genNone [] okAll
          (runScript false linesC5 genNone [] okAll stC5)).fs.files := by decide

/-- C5 amended: when a run leaves the owned-application set unchanged
(which holds in particular whenever every owned app keeps an initializer
next to its sources), running the script twice with the same flag and
oracles ends in the same database state and the same filesystem entries as
running it once. -/
theorem c5_idempotent (redo : Bool) (lines : List String) (gen : String → List String)
    (known : List (String × String)) (ok : Nat → Bool) (s : St)
    (h : myApps (runScript redo lines gen known ok s).fs = myApps s.fs) :
    St.sameEnd
      (runScript redo lines gen known ok (runScript redo lines gen known ok s))
      (runScript redo lines gen known ok s) := by
  have hws : wsOf (runScript redo lines gen known ok s) = wsOf s := by
    rw [wsOf, wsOf, h]
  have hdj : djOf lines (runScript redo lines gen known ok s) = djOf lines s := by
    rw [djOf, djOf, h]
  refine ⟨⟨?_, ?_⟩, ?_⟩
  · intro p
    rw [runScript_files, hws, hdj, runScript_files]
    tauto
  · intro d
    rw [runScript_dirs, hws, hdj, runScript_dirs]
    tauto
  · show (runScript redo lines gen known ok (runScript redo lines gen known ok s)).db =
      (runScript redo lines gen known ok s).db
    rw [runScript_db, runScript_db]

/-- C5 witness: idempotence instantiated on a concrete clean project state
with the redo flag. -/
theorem c5_witness :
    myApps (runScript true linesAuth genInit [] okAll stCore).fs = myApps stCore.fs ∧
      St.sameEnd
        (runScript true linesAuth genInit [] okAll
          (runScript true linesAuth genInit [] okAll stCore))
        (runScript true linesAuth genInit [] okAll stCore) :=
  ⟨by decide, c5_idempotent true linesAuth genInit [] okAll stCore (by decide)⟩
